import Mathlib

/-!
# Verification of the slim HTTP router core

Shallow embedding of the request-dispatch engine of the `slim` Go framework:
the path segmenter (`split`), the route tree (`insert` / `match` / `remove`),
the router operations (`Add` / `Remove` / `Match`), virtual-host resolution
(`findRouter`), the middleware composer (`Compose`) and the default error
handler (`DefaultErrorHandler`).

Go strings are modelled as `List Char` (`Str`), Go slices as `List`,
in-place mutation as explicit state passing, and Go panics as `Option`
(`none` = panic).  Parent back-pointers of tree nodes are dropped: none of
the embedded functions read them (the Go code uses them only to wire the
tree up at construction).
-/

set_option maxRecDepth 10000

/-- Go strings are byte strings; the repository only uses ASCII in routing,
so `List Char` is a faithful model. -/
abbrev Str := List Char

/-- `s[a:b]` for a Go string (both bounds in range at every call site that we
reach; out-of-range slicing is modelled at the call sites that can panic). -/
def goSlice (s : Str) (a b : Nat) : Str := (s.drop a).take (b - a)

/-- Go `s[k:]`, with the bounds check: panics (`none`) when `k > len(s)`. -/
def goSliceFrom (s : Str) (k : Nat) : Option Str :=
  if k ≤ s.length then some (s.drop k) else none

/-- Go 1.21 `slices.Delete(s, i, j)`: checks that `s[i:j]` is a valid slice
(panics otherwise) and returns `append(s[:i], s[j:]...)`. -/
def goSlicesDelete {α : Type} (s : List α) (i j : Nat) : Option (List α) :=
  if i ≤ j ∧ j ≤ s.length then some (s.take i ++ s.drop j) else none

/-- The constant `pathSeparator`. -/
def pathSeparator : Char := '/'

/-- The constant `paramLabel`. -/
def paramLabel : Char := ':'

/-- The constant `anyLabel`. -/
def anyLabel : Char := '*'

/-- The normalisation prelude of `split`:
`if s == "" { s = "/" } else if s[0] != '/' { s = "/" + s }`. -/
def normalizeGo (s : Str) : Str :=
  match s with
  | [] => ['/']
  | c :: _ => if c ≠ pathSeparator then pathSeparator :: s else s

/-- The scanning loop of `split`.  `s` and `l` are the (fixed) normalised
string and its length; the loop walks `i` from `0` to `l`, which we model by
structural recursion on the remaining suffix `rest = s.drop i`.  `start` is
the Go `int` variable (−1 until the first separator is seen).  Returns the
collected segments and the final value of `start`. -/
def splitLoop (s : Str) : Str → Nat → Int → List Str → List Str × Int
  | [], _, start, segs => (segs, start)
  | c :: rest, i, start, segs =>
    if c ≠ pathSeparator then
      splitLoop s rest (i + 1) start segs
    else if start = -1 then
      splitLoop s rest (i + 1) (i : Int) segs
    else if start + 1 < (i : Int) then
      splitLoop s rest (i + 1) (i : Int) (segs ++ [goSlice s start.toNat i])
    else
      splitLoop s rest (i + 1) (i : Int) segs

/-- The post-loop returns of `split`: `start+1 == l` means the (normalised)
input ended in a separator (`trailing = true`); otherwise the span from the
last separator is emitted as a final segment. -/
def splitFinish (s : Str) (r : List Str × Int) : List Str × Bool :=
  if r.2 + 1 = (s.length : Int) then (r.1, true)
  else if r.2 > -1 ∧ r.2 < (s.length : Int) - 1 then (r.1 ++ [s.drop r.2.toNat], false)
  else (r.1, false)

/-- `split` from the route tree source: splits a pattern or request path at
`/`, dropping empty spans; second component is the trailing-slash flag. -/
def splitGo (s0 : Str) : List Str × Bool :=
  splitFinish (normalizeGo s0) (splitLoop (normalizeGo s0) (normalizeGo s0) 0 (-1) [])

example : splitGo "/".toList = ([], true) := by decide
example : splitGo "".toList = ([], true) := by decide
example : splitGo "/a/b".toList = (["/a".toList, "/b".toList], false) := by decide
example : splitGo "/a//b/".toList = (["/a".toList, "/b".toList], true) := by decide
example : splitGo "a".toList = (["/a".toList], false) := by decide

/-! ## Route tree data model (`tree.go`) -/

/-- `nodeTyp`. -/
inductive NodeTyp where
  | ntStatic
  | ntParam
  | ntAny
deriving DecidableEq, Repr

/-- `endpoint`: `(method, pattern, trailingSlash, routeId)`. -/
structure Endpoint where
  method : Str
  pattern : Str
  trailingSlash : Bool
  routeId : Nat
deriving DecidableEq, Repr

/-- `leaf`: the endpoints terminating at a node plus the number of path
parameters needed to match here. -/
structure Leaf where
  endpoints : List Endpoint
  paramsCount : Nat
deriving DecidableEq, Repr

/-- `node`.  The Go struct also stores a `parent` back-pointer, used only
to link freshly created children; no embedded function reads it, so it is
dropped here.  `leafCount` is a Go `int`, hence `Int`. -/
inductive Node where
  | mk (typ : NodeTyp) (segment : Str) (leaf : Option Leaf) (leafCount : Int)
       (staticChildren : List Node) (paramChild : Option Node) (anyChild : Option Node)
deriving Repr

def Node.typ : Node → NodeTyp | .mk t _ _ _ _ _ _ => t
def Node.segment : Node → Str | .mk _ s _ _ _ _ _ => s
def Node.leaf : Node → Option Leaf | .mk _ _ l _ _ _ _ => l
def Node.leafCount : Node → Int | .mk _ _ _ c _ _ _ => c
def Node.staticChildren : Node → List Node | .mk _ _ _ _ sc _ _ => sc
def Node.paramChild : Node → Option Node | .mk _ _ _ _ _ p _ => p
def Node.anyChild : Node → Option Node | .mk _ _ _ _ _ _ a => a

/-- `leaf.endpoint(method)`: first endpoint with the exact method. -/
def leafEndpoint (l : Leaf) (method : Str) : Option Endpoint :=
  l.endpoints.find? (fun e => e.method = method)

/-- `leaf.match(method)`: the list of all endpoint methods, and the (last)
endpoint whose method is exactly equal to the request method.  Note the Go
loop has no special case for the `"*"` method. -/
def leafMatch (l : Leaf) (method : Str) : List Str × Option Endpoint :=
  l.endpoints.foldl
    (fun acc e =>
      (acc.1 ++ [e.method], if e.method = method then some e else acc.2))
    ([], none)

/-- Second character of a segment, `segment[1]` in Go.  Every segment that
reaches the tree comes from `split`, so it has length ≥ 2; the default `' '`
is unreachable (and falls into the static branch, like any non-label). -/
def segLabel (seg : Str) : Char := (seg.get? 1).getD ' '

/-- `segment[2:]` for a segment. -/
def segBody (seg : Str) : Str := seg.drop 2

/-- Fresh node of a given type. -/
def newNode (t : NodeTyp) (seg : Str) : Node := .mk t seg none 0 [] none none

/-- First static child with the given segment literal (the search loop of
`insert` and `remove`). -/
def findStatic (children : List Node) (seg : Str) : Option Node :=
  children.find? (fun c => c.segment = seg)

/-- Replace the first static child whose segment is `seg` (write-back of the
in-place mutation performed through the `child` pointer in Go). -/
def replaceStatic (children : List Node) (seg : Str) (c' : Node) : List Node :=
  match children with
  | [] => []
  | c :: cs => if c.segment = seg then c' :: cs else c :: replaceStatic cs seg c'

/-- `node.insert(segments, params, depth)`, by structural recursion on the
remaining segments (`depth` only ever indexes `segments[depth]` and grows by
one).  Returns the updated node, whether a new leaf was created, and the
updated `params` accumulator. -/
def nodeInsert : Node → List Str → List Str → Node × Bool × List Str
  | .mk t sg lf lc sc pc ac, [], params =>
    match lf with
    | none => (.mk t sg (some ⟨[], params.length⟩) (lc + 1) sc pc ac, true, params)
    | some _ => (.mk t sg lf lc sc pc ac, false, params)
  | .mk t sg lf lc sc pc ac, seg :: rest, params =>
    if segLabel seg = paramLabel then
      let child := match pc with | none => newNode .ntParam [] | some c => c
      let params1 := if segBody seg ≠ [] then params ++ [segBody seg] else params
      let r := nodeInsert child rest params1
      let lc' := if r.2.1 then lc + 1 else lc
      (.mk t sg lf lc' sc (some r.1) ac, r.2.1, r.2.2)
    else if segLabel seg = anyLabel then
      let child := match ac with | none => newNode .ntAny [] | some c => c
      -- the Go code computes `param` (defaulting "" to "*") but appends
      -- `segment[2:]` to params whenever `param != ""`
      let params1 := params ++ [segBody seg]
      let r := nodeInsert child rest params1
      let lc' := if r.2.1 then lc + 1 else lc
      (.mk t sg lf lc' sc pc (some r.1), r.2.1, r.2.2)
    else
      match findStatic sc seg with
      | some c =>
        let r := nodeInsert c rest params
        let lc' := if r.2.1 then lc + 1 else lc
        (.mk t sg lf lc' (replaceStatic sc seg r.1) pc ac, r.2.1, r.2.2)
      | none =>
        let r := nodeInsert (newNode .ntStatic seg) rest params
        let lc' := if r.2.1 then lc + 1 else lc
        (.mk t sg lf lc' (sc ++ [r.1]) pc ac, r.2.1, r.2.2)

/-- The static-children loop of `node.match`: try each static child whose
segment equals the request segment, with full recursion (`f` is the
recursive match at the next depth); first success wins. -/
def scanStatics (f : Node → Option Node) (seg : Str) : List Node → Option Node
  | [] => none
  | c :: cs =>
    if c.segment = seg then
      match f c with
      | some r => some r
      | none => scanStatics f seg cs
    else scanStatics f seg cs

/-- `node.match(segments, depth)`: static children first (full backtracking),
then the param child, then the any child. -/
def nodeMatch : List Str → Node → Option Node
  | [], n => if n.leaf.isSome then some n else none
  | seg :: rest, n =>
    match scanStatics (nodeMatch rest) seg n.staticChildren with
    | some r => some r
    | none =>
      match n.paramChild with
      | some p =>
        match nodeMatch rest p with
        | some r => some r
        | none => n.anyChild
      | none => n.anyChild

example :
    (nodeInsert (newNode .ntStatic []) (splitGo "/a/:x".toList).1 []).2.2 = ["x".toList] := by
  decide

/-! ## Tree removal (`node.remove`) -/

/-- The deferred epilogue of `node.remove`: on success decrement `leafCount`
and, when it drops to (or below) zero, drop all children. -/
def removeDefer (ok : Bool) : Node → Node
  | .mk t sg lf lc sc pc ac =>
    if ok then
      if lc - 1 ≤ 0 then .mk t sg lf (lc - 1) [] none none
      else .mk t sg lf (lc - 1) sc pc ac
    else .mk t sg lf lc sc pc ac

/-- The per-method endpoint deletion loop at the target leaf: for each
requested method, delete the first matching endpoint via
`slices.Delete(endpoints, i, 1)` (note: `1` is passed where the exclusive
upper index of the deleted range is expected) and record its route id.
`none` models the Go panic when the `slices.Delete` bounds check fails. -/
def removeEndpoints (trailing tolerant : Bool) :
    List Str → List Endpoint × List Nat → Option (List Endpoint × List Nat)
  | [], st => some st
  | m :: ms, (eps, routes) =>
    match eps.findIdx? (fun e => e.method = m ∧ (tolerant ∨ e.trailingSlash = trailing)) with
    | none => removeEndpoints trailing tolerant ms (eps, routes)
    | some i =>
      match eps.get? i, goSlicesDelete eps i 1 with
      | some e, some eps' => removeEndpoints trailing tolerant ms (eps', routes ++ [e.routeId])
      | _, _ => none

/-- The static-children loop of `node.remove`: find the first child with the
request segment, recurse (`f`), write the mutated child back, and if the
removal succeeded and the child's `leafCount` dropped to zero, delete it from
the list with `slices.Delete(staticChildren, i, 1)`.  Returns the routes, the
success flag and the updated children list (`none` = panic). -/
def removeStaticScan (f : Node → Option (List Nat × Bool × Node)) (seg : Str) :
    List Node → Nat → List Node → Option (List Nat × Bool × List Node)
  | [], _, all => some ([], false, all)
  | c :: cs, i, all =>
    if c.segment = seg then
      match f c with
      | none => none
      | some (rms, yes, c') =>
        let all' := replaceStatic all seg c'
        if yes then
          if c'.leafCount ≤ 0 then
            match goSlicesDelete all' i 1 with
            | none => none
            | some all'' => some (rms, yes, all'')
          else some (rms, yes, all')
        else some ([], false, all')
    else removeStaticScan f seg cs (i + 1) all

/-- `node.remove(methods, trailingSlash, routingTrailingSlash, segments, depth)`.
Returns the removed route ids, the success flag and the updated node;
`none` models a panic inside `slices.Delete`. -/
def nodeRemove (methods : List Str) (trailing tolerant : Bool) :
    List Str → Node → Option (List Nat × Bool × Node)
  | [], .mk t sg lf lc sc pc ac =>
    match lf with
    | none => some ([], false, .mk t sg lf lc sc pc ac)
    | some l =>
      if methods ≠ [] then
        match removeEndpoints trailing tolerant methods (l.endpoints, []) with
        | none => none
        | some (eps', routes) =>
          let ok := routes ≠ []
          let lf' : Option Leaf := if eps' = [] then none else some ⟨eps', l.paramsCount⟩
          some (routes, ok, removeDefer ok (.mk t sg lf' lc sc pc ac))
      else
        let routes := l.endpoints.map (·.routeId)
        some (routes, true, removeDefer true (.mk t sg none lc sc pc ac))
  | seg :: rest, .mk t sg lf lc sc pc ac =>
    if segLabel seg = paramLabel then
      match pc with
      | none => some ([], false, removeDefer false (.mk t sg lf lc sc pc ac))
      | some p =>
        match nodeRemove methods trailing tolerant rest p with
        | none => none
        | some (routes, ok, p') =>
          -- the Go code tests the *parent's* own (not yet decremented)
          -- leafCount here, not the child's
          let pc' : Option Node := if lc ≤ 0 then none else some p'
          some (routes, ok, removeDefer ok (.mk t sg lf lc sc pc' ac))
    else if segLabel seg = anyLabel then
      match ac with
      | none => some ([], false, removeDefer false (.mk t sg lf lc sc pc ac))
      | some a =>
        match nodeRemove methods trailing tolerant rest a with
        | none => none
        | some (routes, ok, a') =>
          let ac' : Option Node := if a'.leafCount ≤ 0 then none else some a'
          some (routes, ok, removeDefer ok (.mk t sg lf lc sc pc ac'))
    else
      match removeStaticScan (nodeRemove methods trailing tolerant rest) seg sc 0 sc with
      | none => none
      | some (routes, ok, sc') =>
        some (routes, ok, removeDefer ok (.mk t sg lf lc sc' pc ac))

/-! ## The leaf-count bookkeeping invariant (spec §3)

`leafCount(n) = Σ leafCount(child) + (1 if n.leaf ≠ nil)` at every node. -/

/-- Sum of the stored `leafCount` fields of all children of a node. -/
def childLeafCountSum (n : Node) : Int :=
  (n.staticChildren.map Node.leafCount).sum
    + (match n.paramChild with | some p => p.leafCount | none => 0)
    + (match n.anyChild with | some a => a.leafCount | none => 0)

mutual

/-- The leaf-count invariant, checked recursively over a node. -/
def leafCountOk : Node → Bool
  | .mk _ _ lf lc sc pc ac =>
    (lc = childLeafCountSum (.mk .ntStatic [] lf lc sc pc ac)
        + (if lf.isSome then 1 else 0) : Bool)
      && leafCountOkList sc
      && (match pc with | some p => leafCountOk p | none => true)
      && (match ac with | some a => leafCountOk a | none => true)

/-- `leafCountOk` over a list of children. -/
def leafCountOkList : List Node → Bool
  | [] => true
  | c :: cs => leafCountOk c && leafCountOkList cs

end

/-! ## Router registry and operations (`router.go`) -/

/-- Go byte-wise string order (`<` on strings), used by `endpoints.Less`. -/
def strLt : Str → Str → Bool
  | [], [] => false
  | [], _ :: _ => true
  | _ :: _, [] => false
  | a :: as, b :: bs => if a.val < b.val then true else if b.val < a.val then false else strLt as bs

/-- Insert an endpoint into a method-sorted list (model of `sort.Sort` on
`endpoints`, whose `Less` compares methods; methods at one leaf are distinct,
so any correct sort produces this result). -/
def insertSorted (e : Endpoint) : List Endpoint → List Endpoint
  | [] => [e]
  | x :: xs => if strLt e.method x.method then e :: x :: xs else x :: insertSorted e xs

/-- Sort endpoints by method. -/
def sortEndpoints (eps : List Endpoint) : List Endpoint :=
  eps.foldl (fun acc e => insertSorted e acc) []

/-- One registered route as the `Match`/`Remove` paths see it (`routeImpl`);
the handler, name, collector and middleware fields play no role in routing
decisions and are omitted. -/
structure RouteRec where
  id : Nat
  pattern : Str
  params : List Str
deriving DecidableEq, Repr

/-- Router state: the tree, the parallel route list, the (monotonic) route id
counter and the `routingTrailingSlash` flag.  `allowOverwritingRoute` is
`false` (the `RouterConfig{}` default used by `slim.New`). -/
structure RouterState where
  tree : Node
  routes : List RouteRec
  nextId : Nat
  tolerant : Bool

/-- A fresh router: `NewRouter(RouterConfig{})` with an empty tree. -/
def emptyRouter (tolerant : Bool) : RouterState :=
  ⟨.mk .ntStatic [] none 0 [] none none, [], 0, tolerant⟩

/-- Walk the freshly inserted path and update the leaf at its end: the Go
`Add` mutates `tail.leaf` through the pointer returned by `insert`; this is
the pure write-back of that mutation. -/
def updateLeafAt (f : Leaf → Option Leaf) : List Str → Node → Option Node
  | [], .mk t sg lf lc sc pc ac =>
    match lf with
    | none => none
    | some l => match f l with
      | none => none
      | some l' => some (.mk t sg (some l') lc sc pc ac)
  | seg :: rest, .mk t sg lf lc sc pc ac =>
    if segLabel seg = paramLabel then
      match pc with
      | none => none
      | some p => (updateLeafAt f rest p).map (fun p' => .mk t sg lf lc sc (some p') ac)
    else if segLabel seg = anyLabel then
      match ac with
      | none => none
      | some a => (updateLeafAt f rest a).map (fun a' => .mk t sg lf lc sc pc (some a'))
    else
      match findStatic sc seg with
      | none => none
      | some c => (updateLeafAt f rest c).map
          (fun c' => .mk t sg lf lc (replaceStatic sc seg c') pc ac)

/-- The per-method endpoint loop of `Add`: with overwriting disallowed, a
duplicate `(method, path)` panics (`none`); otherwise the endpoint is
appended.  Afterwards the endpoint list is sorted. -/
def attachEndpoints (pattern : Str) (trailing : Bool) (rid : Nat) :
    List Str → Leaf → Option Leaf
  | [], l => some ⟨sortEndpoints l.endpoints, l.paramsCount⟩
  | m :: ms, l =>
    match leafEndpoint l m with
    | some _ => none
    | none => attachEndpoints pattern trailing rid ms
        ⟨l.endpoints ++ [⟨m, pattern, trailing, rid⟩], l.paramsCount⟩

/-- `routerImpl.Add(methods, pattern, handler)`: split, insert, allocate the
next route id, attach one endpoint per method at the tail leaf, sort them and
append the route record.  `none` models the duplicate-route panic. -/
def addGo (s : RouterState) (methods : List Str) (pattern : Str) : Option RouterState :=
  let sp := splitGo pattern
  let segments := sp.1
  let trailing := sp.2
  let ins := nodeInsert s.tree segments []
  let rid := s.nextId + 1
  let routePattern := segments.foldl (· ++ ·) []
  match updateLeafAt (attachEndpoints routePattern trailing rid methods) segments ins.1 with
  | none => none
  | some tree' =>
    some ⟨tree', s.routes ++ [⟨rid, routePattern, ins.2.2⟩], rid, s.tolerant⟩

/-- The registry clean-up loop of `routerImpl.Remove`: every removed route id
is looked up in the route list and deleted (`routeImpl.Remove`); a missing id
yields the "route not found" error (second component `true`). -/
def removeRoutesById : List Nat → List RouteRec → List RouteRec × Bool
  | [], rs => (rs, false)
  | id :: ids, rs =>
    if rs.any (fun r => r.id = id) then
      removeRoutesById ids (rs.filter (fun r => r.id ≠ id))
    else (rs, true)

/-- `routerImpl.Remove(methods, pattern)`: tree removal, then registry
clean-up.  `none` models a panic inside the tree removal; the `Bool` is
whether the "route not found" error was returned. -/
def removeGo (s : RouterState) (methods : List Str) (pattern : Str) :
    Option (RouterState × Bool) :=
  let sp := splitGo pattern
  match nodeRemove methods sp.2 s.tolerant sp.1 s.tree with
  | none => none
  | some (routes, ok, tree') =>
    if ok then
      let r := removeRoutesById routes s.routes
      some (⟨tree', r.1, s.nextId, s.tolerant⟩, r.2)
    else
      some (⟨tree', s.routes, s.nextId, s.tolerant⟩, false)

/-! ## Request matching (`routerImpl.Match`) -/

/-- `RouteMatchType`. -/
inductive RouteMatchType where
  | unknown
  | notFound
  | methodNotAllowed
  | found
deriving DecidableEq, Repr

/-- The observable outcome of `Match`: the match type, the allow-methods
list, the extracted path parameters and the matched route id. -/
structure MatchResult where
  typ : RouteMatchType
  allowMethods : List Str
  params : List (Str × Str)
  routeId : Option Nat
deriving DecidableEq, Repr

/-- Hex digit value (`net/url`'s `unhex`). -/
def hexVal (c : Char) : Option Nat :=
  if '0' ≤ c ∧ c ≤ '9' then some (c.toNat - '0'.toNat)
  else if 'a' ≤ c ∧ c ≤ 'f' then some (c.toNat - 'a'.toNat + 10)
  else if 'A' ≤ c ∧ c ≤ 'F' then some (c.toNat - 'A'.toNat + 10)
  else none

/-- Modelled from the Go standard library `net/url.PathUnescape`: decode
`%XX` escapes, leave `+` and everything else untouched, fail on a malformed
escape. -/
def pathUnescape : Str → Option Str
  | [] => some []
  | '%' :: rest =>
    match rest with
    | a :: b :: t =>
      match hexVal a, hexVal b with
      | some hi, some lo => (pathUnescape t).map (fun r => Char.ofNat (hi * 16 + lo) :: r)
      | _, _ => none
    | _ => none
  | c :: t => (pathUnescape t).map (fun r => c :: r)

/-- `strings.Join(elems, "/")`. -/
def strJoinSlash : List Str → Str
  | [] => []
  | [s] => s
  | s :: rest => s ++ ['/'] ++ strJoinSlash rest

def scanToSepAux : Str → Nat → Nat
  | [], j => j
  | c :: t, j => if c ≠ pathSeparator then scanToSepAux t (j + 1) else j

/-- `j := i; for ; j < l && pattern[j] != '/'; j++ {}` — scan `pattern[j:]`
for the next separator, returning its index (or the length). -/
def scanToSep (pattern : Str) (j : Nat) : Nat :=
  scanToSepAux (pattern.drop j) j

/-- The parameter-extraction loop of `Match` (the walk of the pattern and the
request segments in lockstep).  `fuel` bounds the iteration count; the loop
index `i` strictly increases each round, so `pattern.length + 1` rounds
always suffice and the fuel-exhaustion `none` is unreachable at the call
site.  `none` otherwise models the Go panics (param-count overflow, segment
index out of range, slicing `""[1:]`). -/
def extractLoop (pattern : Str) (segments : List Str) (paramsCount : Nat)
    (tailing : Bool) :
    Nat → Nat → Nat → Nat → List (Str × Str) → Option (List (Str × Str))
  | 0, _, _, _, _ => none
  | fuel + 1, i, valueIndex, paramIndex, acc =>
    match pattern.get? i with
    | none => some acc
    | some c =>
      if c = paramLabel ∨ c = anyLabel then
        let j := scanToSep pattern i
        if paramIndex ≥ paramsCount then none
        else
          match segments.get? valueIndex with
          | none => none
          | some sv =>
            match goSliceFrom sv 1 with
            | none => none
            | some v0 =>
              let key := goSlice pattern (i + 1) j
              let kv : Option (Str × Str × Nat) :=
                if c = anyLabel then
                  match goSliceFrom (strJoinSlash (segments.drop valueIndex)) 1 with
                  | none => none
                  | some tail0 =>
                    some (if key = [] then [anyLabel] else key,
                      tail0 ++ (if tailing then ['/'] else []), pattern.length)
                else some (key, v0, j)
              match kv with
              | none => none
              | some (key2, value0, i2) =>
                let value := match pathUnescape value0 with
                  | some v => v
                  | none => value0
                extractLoop pattern segments paramsCount tailing fuel
                  (i2 + 1) (valueIndex + 1) (paramIndex + 1) (acc ++ [(key2, value)])
      else if c = pathSeparator ∧ i > 0 then
        extractLoop pattern segments paramsCount tailing fuel (i + 1) (valueIndex + 1)
          paramIndex acc
      else
        extractLoop pattern segments paramsCount tailing fuel (i + 1) valueIndex
          paramIndex acc

/-- `routerImpl.Match(req, pathParams)` on a request with the given method
and URL path.  `none` models the Go panics (nil leaf, missing route record,
bad param count). -/
def matchGo (s : RouterState) (method path : Str) : Option MatchResult :=
  let sp := splitGo path
  let segments := sp.1
  let tailingSlash := sp.2
  match nodeMatch segments s.tree with
  | none => some ⟨.notFound, [], [], none⟩
  | some tail =>
    match tail.leaf with
    | none => none
    | some lf =>
      let lm := leafMatch lf method
      let allow := lm.1
      match lm.2 with
      | none => some ⟨.methodNotAllowed, allow, [], none⟩
      | some ep =>
        if ep.trailingSlash ≠ tailingSlash ∧ ¬ s.tolerant then
          some ⟨.methodNotAllowed, allow, [], none⟩
        else
          match s.routes.find? (fun r => r.id = ep.routeId) with
          | none => none
          | some route =>
            match extractLoop route.pattern segments lf.paramsCount tailingSlash
                (route.pattern.length + 1) 0 0 0 [] with
            | none => none
            | some params => some ⟨.found, allow, params, some ep.routeId⟩

example :
    (addGo (emptyRouter false) ["GET".toList] "/users/:id".toList).bind
      (fun s => matchGo s "GET".toList "/users/12345".toList)
    = some ⟨.found, ["GET".toList], [("id".toList, "12345".toList)], some 1⟩ := by
  decide

example :
    (addGo (emptyRouter false) ["GET".toList] "/users/:id".toList).bind
      (fun s => matchGo s "POST".toList "/users/12345".toList)
    = some ⟨.methodNotAllowed, ["GET".toList], [], none⟩ := by
  decide

/-! ## Virtual-host resolution (`Slim.findRouter`) -/

/-- `strings.IndexByte` (first index of `c`, or −1). -/
def goIndexByte (s : Str) (c : Char) : Int :=
  match s.findIdx? (fun x => x = c) with
  | some n => (n : Int)
  | none => -1

/-- `strings.LastIndexByte` (last index of `c`, or −1). -/
def goLastIndexByte (s : Str) (c : Char) : Int :=
  match s.reverse.findIdx? (fun x => x = c) with
  | some n => (s.length : Int) - 1 - (n : Int)
  | none => -1

/-- Lookup in the virtual-host map (`s.routers[key]`); hosts registered by
`Slim.Host` are distinct keys, so an association list models the Go map. -/
def hostLookup (routers : List (Str × Nat)) (key : Str) : Option Nat :=
  (routers.find? (fun r => r.1 = key)).map (·.2)

/-- `Slim.findRouter(host)`: exact entry, then the `*.`-rewritten entry, then
the default router (routers are named by numeric ids; `dflt` is the default
router `s.router`). -/
def findRouterGo (routers : List (Str × Nat)) (dflt : Nat) (host : Str) : Nat :=
  if routers.length > 0 ∧ host.contains '.' ∧ host ≠ ['.'] then
    match hostLookup routers host with
    | some r => r
    | none =>
      if host.take 2 = ['*', '.'] then dflt
      else
        let i := goIndexByte host '.'
        let j := goLastIndexByte host '.'
        if i = -1 ∨ i = j then dflt
        else
          match hostLookup routers (['*', '.'] ++ host.drop j.toNat) with
          | some r => r
          | none => dflt
  else dflt

/-! ## Middleware composition (`Compose`)

A middleware's observable behaviour within one request is a sequence of
context effects (modelled as appending events to a log) interleaved with
calls to `next`; `MW` is that behaviour.  `MWorld` is the mutable state a
running chain touches: the shared context log and the composed closure's
captured `index` variable. -/

/-- The state seen during one execution of a composed chain: the `index`
variable captured by the closure returned by `Compose`, and the request
context (observable as an event log). -/
structure MWorld where
  idx : Int
  log : List String
deriving DecidableEq, Repr

/-- A handler (`HandlerFunc`) as the terminal of a chain: it may touch the
context (log) and return an error, but has no access to the captured index. -/
def MWHandler := List String → List String × Option String

/-- What a middleware receives as `next`. -/
def NextFn := MWorld → MWorld × Option String

/-- The behaviour of one middleware in one execution: emit context events,
call `next` (observing its error), and finally return an error or nil. -/
inductive MW where
  | ret (e : Option String)
  | emit (s : String) (k : MW)
  | callNext (k : Option String → MW)

/-- Run a middleware behaviour against a given `next`. -/
def runMW : MW → NextFn → MWorld → MWorld × Option String
  | .ret e, _, w => (w, e)
  | .emit s k, nf, w => runMW k nf ⟨w.idx, w.log ++ [s]⟩
  | .callNext k, nf, w =>
    let r := nf w
    runMW (k r.2) nf r.1

/-- Lift a terminal handler to a `NextFn` (it cannot touch the index). -/
def liftH (h : MWHandler) : NextFn :=
  fun w => let r := h w.log; (⟨w.idx, r.1⟩, r.2)

/-- The reentrancy error of `Compose`. -/
def composeReentrantErr : String := "slim: next() called multiple times"

/-- The `dispatch` closure inside `Compose`: at layer `i`, first check the
captured index (`i <= index` fails with the reentrancy error), then record
the new depth and run layer `i` — the terminal `next` when all middlewares
are exhausted, middleware `i` with `dispatch(i+1)` as its `next` otherwise.
The list argument is the suffix `middleware[i:]`. -/
def dispatch : List MW → Int → NextFn → MWorld → MWorld × Option String
  | mws, i, nf, w =>
    if i ≤ w.idx then (w, some composeReentrantErr)
    else
      match mws with
      | [] => nf ⟨i, w.log⟩
      | m :: rest => runMW m (dispatch rest (i + 1) nf) ⟨i, w.log⟩

/-- `Compose(middleware...)`: `nil` for an empty list, the middleware itself
for a singleton (no dispatch wrapper, hence no reentrancy protection), and
the dispatch wrapper otherwise.  The captured `index` starts at −1 when the
composed middleware is created; invoking the result on a world with
`idx = -1` models the (single) request execution. -/
def goCompose : List MW → Option (NextFn → MWorld → MWorld × Option String)
  | [] => none
  | [m] => some (runMW m)
  | m1 :: m2 :: rest => some (dispatch (m1 :: m2 :: rest) 0)

/-- Invoke a freshly composed middleware (captured index −1) with a terminal
handler, starting from a given context log; a `nil` composition invokes the
terminal directly, as every `Compose` call site does. -/
def runComposed (mws : List MW) (h : MWHandler) (log : List String) :
    List String × Option String :=
  match goCompose mws with
  | none => h log
  | some c =>
    let r := c (liftH h) ⟨-1, log⟩
    (r.1.log, r.2)

/-- The trace middleware used by the composition claims: emit `<name>-enter`,
call `next` once, propagate its error, emit `<name>-exit` on success. -/
def traceMW (name : String) : MW :=
  .emit (name ++ "-enter") (.callNext (fun e =>
    match e with
    | none => .emit (name ++ "-exit") (.ret none)
    | some er => .ret (some er)))

/-- A terminal handler that emits `h` and succeeds. -/
def hEmit : MWHandler := fun log => (log ++ ["h"], none)

/-! ## The default error handler (`DefaultErrorHandler`, `error.go`) -/

/-- A Go error value as the error handler can observe it.  `refId` models
pointer identity: `errors.Is` on the sentinel targets compares interface
values, which for the `*HTTPError` sentinels is pointer equality.  An
`httpErr` is a `*HTTPError` (status code, message, optional wrapped cause);
a `plainErr` is any other error. -/
inductive GoError where
  | httpErr (refId : Nat) (code : Nat) (message : String) (internal : Option GoError)
  | plainErr (refId : Nat) (msg : String)

/-- Pointer identity of error values. -/
def GoError.refOf : GoError → Nat
  | .httpErr r _ _ _ => r
  | .plainErr r _ => r

/-- `HTTPError.Unwrap` / no `Unwrap` for plain errors. -/
def GoError.unwrap : GoError → Option GoError
  | .httpErr _ _ _ i => i
  | .plainErr _ _ => none

/-- `errors.Is(err, target)`: identity at each step of the unwrap chain. -/
def errorsIs : GoError → GoError → Bool
  | .plainErr r _, target => r = target.refOf
  | .httpErr r _ _ internal, target =>
    if r = target.refOf then true
    else
      match internal with
      | some inner => errorsIs inner target
      | none => false

/-- `http.StatusText`, restricted to the codes this development touches
(modelled from the Go standard library; unknown codes give `""`). -/
def statusText (code : Nat) : String :=
  if code = 403 then "Forbidden"
  else if code = 404 then "Not Found"
  else if code = 405 then "Method Not Allowed"
  else if code = 415 then "Unsupported Media Type"
  else if code = 500 then "Internal Server Error"
  else ""

/-- `NewHTTPError(code)`: message defaults to the status text. -/
def newHTTPError (refId code : Nat) : GoError :=
  .httpErr refId code (statusText code) none

/-- The package sentinels used by the claims (each a distinct allocation). -/
def errNotFound : GoError := newHTTPError 1 404

def errMethodNotAllowed : GoError := newHTTPError 2 405

def errForbidden : GoError := newHTTPError 3 403

/-- `HTTPError.Error()` (`Internal == nil` case uses
`"code=%d, message=%v"`); plain errors return their message. -/
def GoError.errString : GoError → String
  | .httpErr _ code msg none => "code=" ++ toString code ++ ", message=" ++ msg
  | .httpErr _ code msg (some i) =>
      "statusCode=" ++ toString code ++ ", message=" ++ msg ++ ", internal=" ++ i.errString
  | .plainErr _ msg => msg

/-- The observable response state the error handler writes. -/
structure RespState where
  written : Bool
  status : Nat
  body : String
  allowHeader : List Str
deriving DecidableEq, Repr

/-- A fresh, unwritten response. -/
def freshResp : RespState := ⟨false, 0, "", []⟩

/-- `DefaultErrorHandler(c, err)`: if the response is already written, only
log; `ErrNotFound` renders Go's standard 404 body (`http.NotFound`);
`ErrMethodNotAllowed` sets the `Allow` header from the context and renders
`http.Error` with the 405 status text; every other error — typed HTTP errors
included — renders `http.Error(w, err.Error(), 500)`.  `http.Error` writes
the message plus a newline. -/
def defaultErrorHandler (allowsMethods : List Str) (err : GoError)
    (resp : RespState) : RespState :=
  if resp.written then resp
  else if errorsIs err errNotFound then
    ⟨true, 404, "404 page not found\n", resp.allowHeader⟩
  else if errorsIs err errMethodNotAllowed then
    ⟨true, 405, statusText 405 ++ "\n", allowsMethods⟩
  else
    ⟨true, 500, err.errString ++ "\n", resp.allowHeader⟩

example :
    defaultErrorHandler [] errForbidden freshResp
    = ⟨true, 500, "code=403, message=Forbidden\n", []⟩ := by decide

/-! ## Claim theorems -/

/-- Router with only `Any("/api/test")` registered (method set `{"*"}`),
as `slim.New()` configures it (`routingTrailingSlash = false`). -/
def anyMethodState : Option RouterState :=
  addGo (emptyRouter false) ["*".toList] "/api/test".toList

/-- C1: the claim fails on the code.  With a route registered under the
wildcard method `"*"` (as `Any` does), a `GET` request for the very path the
route was registered at does *not* produce `RouteMatchFound`: `leaf.match`
compares methods by plain equality, has no `"*"` case, finds no endpoint,
and `Match` returns `RouteMatchMethodNotAllowed` (the repository's own test
`TestRouter_Any_WildcardMethod` expects 200/Found, so this is a code bug). -/
theorem wildcard_method_not_matched :
    anyMethodState.bind (fun s => matchGo s "GET".toList "/api/test".toList)
      = some ⟨.methodNotAllowed, ["*".toList], [], none⟩
    ∧ anyMethodState.bind (fun s => (matchGo s "GET".toList "/api/test".toList).map (·.typ))
      ≠ some RouteMatchType.found := by
  constructor
  · decide
  · decide

/-- Router with `GET /a/*rest` registered. -/
def wildcardParamState : Option RouterState :=
  addGo (emptyRouter false) ["GET".toList] "/a/*rest".toList

/-- C2: the claim fails on the code.  For pattern `/a/*rest` and request
path `/a/b/c/d` the extracted value of `rest` is `"b//c//d"`, not the
claimed `"b/c/d"`: `Match` joins the remaining segments — which each carry
their leading `/` — with a further `"/"` separator
(`strings.Join(segments[valueIndex:], "/")[1:]`), doubling every interior
slash (the repository's own test `TestRouter_Any_WithWildcard` expects
`a/b/c` for `/files/a/b/c`, so this is a code bug). -/
theorem wildcard_param_value_doubled_slashes :
    wildcardParamState.bind (fun s => matchGo s "GET".toList "/a/b/c/d".toList)
      = some ⟨.found, ["GET".toList], [("rest".toList, "b//c//d".toList)], some 1⟩
    ∧ "b//c//d".toList ≠ "b/c/d".toList := by
  constructor
  · decide
  · decide

/-- Router with `GET /a`, `DELETE /a` and `GET /a/b` registered
(route ids 1, 2, 3). -/
def removeClaimState : Option RouterState :=
  ((addGo (emptyRouter false) ["GET".toList] "/a".toList).bind
    (fun s => addGo s ["DELETE".toList] "/a".toList)).bind
    (fun s => addGo s ["GET".toList] "/a/b".toList)

/-- The state above after `Remove(["GET"], "/a")`. -/
def removeClaimAfter : Option RouterState :=
  removeClaimState.bind (fun s => (removeGo s ["GET".toList] "/a".toList).map (·.1))

/-- C4: the claim fails on the code.  At the target leaf the endpoints are
sorted `[DELETE(id 2), GET(id 1)]`, so the `GET` endpoint sits at index 1 and
`slices.Delete(endpoints, 1, 1)` deletes the empty range `[1:1)` — nothing.
`Remove` still reports route id 1 removed and deletes it from the registry,
leaving a stale endpoint in the tree; the subsequent `Match(GET, "/a")`
finds that endpoint, fails to resolve route id 1 and panics (modelled as
`none`) instead of returning `NotFound` or `MethodNotAllowed`. -/
theorem remove_stale_endpoint_panic :
    (removeClaimAfter.map (fun s => s.routes.map (·.id)) = some [2, 3])
    ∧ (removeClaimAfter.bind (fun s =>
        (nodeMatch ["/a".toList] s.tree).map (fun n =>
          n.leaf.map (fun lf => lf.endpoints.map (·.routeId))))
        = some (some [2, 1]))
    ∧ removeClaimAfter.bind (fun s => matchGo s "GET".toList "/a".toList) = none := by
  refine ⟨by decide, by decide, by decide⟩

/-- Router with `GET /a`, `POST /a` and `GET /a/b` registered, then
`Remove(["GET"], "/a")` (which deletes the `GET` endpoint at index 0
correctly, leaving the leaf with the `POST` endpoint). -/
def leafCountClaimState : Option RouterState :=
  (((addGo (emptyRouter false) ["GET".toList] "/a".toList).bind
    (fun s => addGo s ["POST".toList] "/a".toList)).bind
    (fun s => addGo s ["GET".toList] "/a/b".toList)).bind
    (fun s => (removeGo s ["GET".toList] "/a".toList).map (·.1))

/-- C5: the claim fails on the code.  `node.remove` decrements `leafCount`
on every node of the path whenever *any* endpoint was removed, even when the
leaf itself survives (here `POST /a` remains).  In the reachable state after
`Add(GET,/a); Add(POST,/a); Add(GET,/a/b); Remove([GET],/a)` the `/a` node
holds a leaf and a child leaf but has `leafCount 1`, violating
`leafCount(n) = Σ leafCount(child) + (1 if n.leaf ≠ nil)` — contradicting
the code's own documentation of `leafCount` as the number of leaves reached
through the node. -/
theorem leafCount_invariant_broken_by_remove :
    leafCountClaimState.map (fun s => leafCountOk s.tree) = some false := by
  decide

/-- The virtual-host table of the repository's own vhost test: an exact
entry `app.example.com` (router 1) and a wildcard entry `*.example.com`
(router 2); router 0 is the default. -/
def vhostRouters : List (Str × Nat) :=
  [("app.example.com".toList, 1), ("*.example.com".toList, 2)]

/-- C6: the claim fails on the code.  `findRouter` builds the wildcard key
as `"*." + host[j:]` with `j = LastIndexByte(host, '.')`, i.e. from the
*last* dot, producing `*..com` for `foo.example.com`; the registered
`*.example.com` entry (which the claim's first-dot rewrite would produce) is
never consulted and the default router is returned (the repository's own
test `TestVHost_ExactMatchAndWildcardFallback` expects the wildcard router,
so this is a code bug).  Exact match and non-domain fallback do work. -/
theorem vhost_wildcard_lookup_misses :
    findRouterGo vhostRouters 0 "foo.example.com".toList = 0
    ∧ hostLookup vhostRouters "*.example.com".toList = some 2
    ∧ findRouterGo vhostRouters 0 "app.example.com".toList = 1
    ∧ findRouterGo vhostRouters 0 "localhost".toList = 0 := by
  refine ⟨by decide, by decide, by decide, by decide⟩

/-- Router with both `GET /a/:x` and `GET /a/*y` registered
(route ids 1 and 2). -/
def priorityClaimState : Option RouterState :=
  (addGo (emptyRouter false) ["GET".toList] "/a/:x".toList).bind
    (fun s => addGo s ["GET".toList] "/a/*y".toList)

/-- C3: confirmed.  At every node `node.match` tries the static children
first with full recursion (the first static child whose recursive match
succeeds wins), then the param child, and only when both fail yields the any
child; in particular with `/a/:x` and `/a/*y` registered, `/a/foo` matches
the param route (id 1) and `/a/foo/bar` the wildcard route (id 2). -/
theorem match_priority_static_param_any :
    (∀ (n : Node) (seg : Str) (rest : List Str) (r : Node),
      scanStatics (nodeMatch rest) seg n.staticChildren = some r →
      nodeMatch (seg :: rest) n = some r)
    ∧ (∀ (n : Node) (seg : Str) (rest : List Str) (p r : Node),
      scanStatics (nodeMatch rest) seg n.staticChildren = none →
      n.paramChild = some p → nodeMatch rest p = some r →
      nodeMatch (seg :: rest) n = some r)
    ∧ (∀ (n : Node) (seg : Str) (rest : List Str),
      scanStatics (nodeMatch rest) seg n.staticChildren = none →
      (∀ p, n.paramChild = some p → nodeMatch rest p = none) →
      nodeMatch (seg :: rest) n = n.anyChild)
    ∧ (priorityClaimState.bind (fun s =>
        (matchGo s "GET".toList "/a/foo".toList).map (fun m => (m.typ, m.routeId)))
        = some (.found, some 1))
    ∧ (priorityClaimState.bind (fun s =>
        (matchGo s "GET".toList "/a/foo/bar".toList).map (fun m => (m.typ, m.routeId)))
        = some (.found, some 2)) := by
  refine ⟨?_, ?_, ?_, by decide, by decide⟩
  · intro n seg rest r h
    simp only [nodeMatch, h]
  · intro n seg rest p r hs hp hr
    simp only [nodeMatch, hs, hp, hr]
  · intro n seg rest hs hp
    cases hpc : n.paramChild with
    | none => simp only [nodeMatch, hs, hpc]
    | some p =>
      have := hp p hpc
      simp only [nodeMatch, hs, hpc, this]

/-- Witness for `match_priority_static_param_any`: a two-node tree where the
static child `/a` matches the request segment and wins. -/
theorem match_priority_static_param_any_witness :
    nodeMatch ["/a".toList]
      (.mk .ntStatic [] none 1 [.mk .ntStatic "/a".toList (some ⟨[], 0⟩) 1 [] none none]
        none none)
      = some (.mk .ntStatic "/a".toList (some ⟨[], 0⟩) 1 [] none none) :=
  match_priority_static_param_any.1 _ "/a".toList [] _ rfl

/-- The ill-behaved middleware of the repository's
`TestCompose_NextCalledMultipleTimes`: call `next`; on success call it
again. -/
def badMW : MW :=
  .callNext (fun e =>
    match e with
    | some er => .ret (some er)
    | none => .callNext (fun e2 => .ret e2))

/-- A middleware that just forwards to `next`. -/
def noopMW : MW := .callNext (fun e => .ret e)

/-- A terminal handler never lowers the captured index. -/
theorem liftH_idx_mono (f : MWHandler) (v : MWorld) : v.idx ≤ ((liftH f) v).1.idx :=
  le_of_eq rfl

/-- A middleware behaviour can only move the captured index the way its
`next` does: if `next` never lowers it, running the middleware never lowers
it. -/
theorem runMW_idx_mono (nf : NextFn) (hnf : ∀ v, v.idx ≤ (nf v).1.idx) :
    ∀ (m : MW) (w : MWorld), w.idx ≤ (runMW m nf w).1.idx := by
  intro m
  induction m with
  | ret e => intro w; simp [runMW]
  | emit s k ih => intro w; simpa [runMW] using ih ⟨w.idx, w.log ++ [s]⟩
  | callNext k ih =>
    intro w
    simp only [runMW]
    exact le_trans (hnf w) (ih (nf w).2 (nf w).1)

/-- `dispatch` never lowers the captured index. -/
theorem dispatch_idx_mono (nf : NextFn) (hnf : ∀ v, v.idx ≤ (nf v).1.idx) :
    ∀ (mws : List MW) (i : Int) (w : MWorld), w.idx ≤ ((dispatch mws i nf w).1).idx := by
  intro mws
  induction mws with
  | nil =>
    intro i w
    simp only [dispatch]
    split
    · exact le_refl _
    · rename_i hcond
      have h1 : w.idx < i := by omega
      exact le_trans (le_of_lt h1) (hnf ⟨i, w.log⟩)
  | cons m rest ih =>
    intro i w
    simp only [dispatch]
    split
    · exact le_refl _
    · rename_i hcond
      have hinner : ∀ v, v.idx ≤ ((dispatch rest (i + 1) nf v).1).idx := fun v => ih (i + 1) v
      have h2 := runMW_idx_mono (dispatch rest (i + 1) nf) hinner m ⟨i, w.log⟩
      have h1 : w.idx < i := by omega
      exact le_trans (le_of_lt h1) h2

/-- After any call into layer `i`, the captured index is at least `i`. -/
theorem dispatch_idx_ge (nf : NextFn) (hnf : ∀ v, v.idx ≤ (nf v).1.idx)
    (mws : List MW) (i : Int) (w : MWorld) : i ≤ ((dispatch mws i nf w).1).idx := by
  cases mws with
  | nil =>
    simp only [dispatch]
    split
    · rename_i hcond; exact hcond
    · exact hnf ⟨i, w.log⟩
  | cons m rest =>
    simp only [dispatch]
    split
    · rename_i hcond; exact hcond
    · exact runMW_idx_mono (dispatch rest (i + 1) nf)
        (fun v => dispatch_idx_mono nf hnf rest (i + 1) v) m ⟨i, w.log⟩

/-- Once the captured index has reached layer `i`, any further call into
layer `i` fails immediately with the reentrancy error, running nothing. -/
theorem dispatch_reentry_fails (mws : List MW) (i : Int) (nf : NextFn) (w : MWorld)
    (h : i ≤ w.idx) : dispatch mws i nf w = (w, some composeReentrantErr) := by
  cases mws with
  | nil => simp only [dispatch]; rw [if_pos h]
  | cons m rest => simp only [dispatch]; rw [if_pos h]

/-- C7 counterexample: the claim as stated fails for a one-element
middleware list.  `Compose` returns the single middleware unchanged — no
dispatch wrapper, no index — so a middleware that calls `next` twice simply
re-runs the inner layer: composing `[badMW]` with terminal `h` runs `h`
twice and returns nil, with no reentrancy error. -/
theorem compose_singleton_no_reentrancy_guard :
    runComposed [badMW] hEmit [] = (["h", "h"], none)
    ∧ goCompose [badMW] = some (runMW badMW) := by
  exact ⟨by decide, rfl⟩

/-- C7 as amended: for middleware lists of length ≥ 2, `Compose` wraps the
list in the reentrancy-checked `dispatch`, and within one execution a second
sequential call into the same layer `i` (a middleware invoking its `next` a
second time) returns the reentrancy error and leaves the state untouched —
inner layers are not re-run.  The last conjunct is the repository's own
two-middleware test scenario: the inner layer runs once and the chain
reports the reentrancy error. -/
theorem compose_reentrancy_second_next_fails
    (m1 m2 : MW) (ms rest : List MW) (i : Int) (f : MWHandler) (w : MWorld) :
    goCompose (m1 :: m2 :: ms) = some (dispatch (m1 :: m2 :: ms) 0)
    ∧ dispatch rest i (liftH f) ((dispatch rest i (liftH f) w).1)
        = ((dispatch rest i (liftH f) w).1, some composeReentrantErr)
    ∧ runComposed [badMW, noopMW] hEmit [] = (["h"], some composeReentrantErr) := by
  refine ⟨rfl, ?_, by decide⟩
  exact dispatch_reentry_fails rest i (liftH f) _
    (dispatch_idx_ge (liftH f) (liftH_idx_mono f) rest i w)

/-- The enter events of a list of trace middlewares, in order. -/
def enterTrace (names : List String) : List String := names.map (fun n => n ++ "-enter")

/-- The exit events of a list of trace middlewares, in reverse order. -/
def exitTrace (names : List String) : List String := (names.map (fun n => n ++ "-exit")).reverse

/-- Running `dispatch` over trace middlewares with a terminal that appends
`T`: enters in list order, then `T`, then exits in reverse order, no error,
and the captured index left at the deepest layer. -/
theorem dispatch_trace (T : List String) (f : MWHandler)
    (hf : ∀ lg, f lg = (lg ++ T, none)) :
    ∀ (names : List String) (i : Int) (w : MWorld), w.idx < i →
      dispatch (names.map traceMW) i (liftH f) w
        = (⟨i + names.length, w.log ++ enterTrace names ++ T ++ exitTrace names⟩, none) := by
  intro names
  induction names with
  | nil =>
    intro i w hw
    simp only [List.map, dispatch]
    rw [if_neg (by omega)]
    simp [liftH, hf, enterTrace, exitTrace]
  | cons nm tl ih =>
    intro i w hw
    simp only [List.map, dispatch]
    rw [if_neg (by omega)]
    simp only [traceMW, runMW]
    rw [ih (i + 1) ⟨i, w.log ++ [nm ++ "-enter"]⟩ (by show (i : Int) < i + 1; omega)]
    simp only [runMW]
    refine congrArg (fun x => (x, none)) ?_
    refine congrArg₂ MWorld.mk (by simp; omega) ?_
    simp [enterTrace, exitTrace, List.append_assoc]

/-- Invoking a freshly composed chain of trace middlewares over a terminal
that appends `T` produces the onion trace, for every list length (including
the `nil`-composition and single-middleware short-cuts of `Compose`). -/
theorem runComposed_trace (T : List String) (f : MWHandler)
    (hf : ∀ lg, f lg = (lg ++ T, none)) :
    ∀ (names : List String) (log : List String),
      runComposed (names.map traceMW) f log
        = (log ++ enterTrace names ++ T ++ exitTrace names, none) := by
  intro names log
  match names with
  | [] => simp [runComposed, goCompose, hf, enterTrace, exitTrace]
  | [n] =>
    simp only [List.map, runComposed, goCompose, traceMW, runMW, liftH, hf]
    simp [enterTrace, exitTrace, List.append_assoc]
  | n1 :: n2 :: tl =>
    simp only [List.map, runComposed, goCompose]
    rw [show traceMW n1 :: traceMW n2 :: tl.map traceMW
        = (n1 :: n2 :: tl).map traceMW by simp]
    rw [dispatch_trace T f hf (n1 :: n2 :: tl) 0 ⟨-1, log⟩ (by show (-1 : Int) < 0; omega)]

/-- The per-request chain assembly: the entry point composes the global
middlewares around `findHandler`, which composes the router middlewares
around the match handler, which (`ComposeChainHandler`) composes the
collector chain (outer to inner) around the route middlewares around the
handler.  Each `Compose` call site treats a `nil` composition as "invoke the
terminal directly", as the Go code does. -/
def serveTraceGo (global routerMws collectors routeMws : List String) : MWHandler :=
  runComposed (global.map traceMW)
    (runComposed (routerMws.map traceMW)
      (runComposed (collectors.map traceMW)
        (runComposed (routeMws.map traceMW) hEmit)))

/-- C9: confirmed.  `Compose(m1, m2, m3)` with terminal `h` emits
`m1-enter, m2-enter, m3-enter, h, m3-exit, m2-exit, m1-exit`; in general a
composed chain of trace middlewares emits all enters in registration order,
the terminal, then the exits in reverse order; and the full request chain
runs global → router → collector (outer to inner) → route → handler with
the post-`next` code in exactly the reverse order. -/
theorem compose_onion_order :
    (runComposed [traceMW "m1", traceMW "m2", traceMW "m3"] hEmit []
      = (["m1-enter", "m2-enter", "m3-enter", "h", "m3-exit", "m2-exit", "m1-exit"], none))
    ∧ (∀ (names : List String) (log : List String),
      runComposed (names.map traceMW) hEmit log
        = (log ++ enterTrace names ++ ["h"] ++ exitTrace names, none))
    ∧ (∀ (global routerMws collectors routeMws : List String) (log : List String),
      serveTraceGo global routerMws collectors routeMws log
        = (log ++ enterTrace global ++ enterTrace routerMws ++ enterTrace collectors
            ++ enterTrace routeMws ++ ["h"] ++ exitTrace routeMws ++ exitTrace collectors
            ++ exitTrace routerMws ++ exitTrace global, none)) := by
  have hbase : ∀ lg, hEmit lg = (lg ++ ["h"], none) := fun lg => rfl
  refine ⟨by decide, runComposed_trace ["h"] hEmit hbase, ?_⟩
  intro g r cs rt log
  have h1 := runComposed_trace ["h"] hEmit hbase rt
  have h2 := runComposed_trace (enterTrace rt ++ ["h"] ++ exitTrace rt)
    (runComposed (rt.map traceMW) hEmit) (fun lg => by rw [h1 lg]; simp) cs
  have h3 := runComposed_trace
    (enterTrace cs ++ (enterTrace rt ++ ["h"] ++ exitTrace rt) ++ exitTrace cs)
    (runComposed (cs.map traceMW) (runComposed (rt.map traceMW) hEmit))
    (fun lg => by rw [h2 lg]; simp) r
  have h4 := runComposed_trace
    (enterTrace r ++ (enterTrace cs ++ (enterTrace rt ++ ["h"] ++ exitTrace rt)
      ++ exitTrace cs) ++ exitTrace r)
    (runComposed (r.map traceMW)
      (runComposed (cs.map traceMW) (runComposed (rt.map traceMW) hEmit)))
    (fun lg => by rw [h3 lg]; simp) g
  rw [serveTraceGo, h4 log]
  simp [List.append_assoc]

/-- C8 counterexample: the claim fails on the code.  Returning the
forbidden sentinel (`ErrForbidden`, an `HTTPError` carrying status 403) with
the response still unwritten does *not* produce a 403 with `Forbidden\n`:
`DefaultErrorHandler` special-cases only the not-found and
method-not-allowed sentinels and renders every other error — typed HTTP
errors included — via `http.Error(w, err.Error(), 500)`. -/
theorem http_error_rendered_as_500 :
    defaultErrorHandler [] errForbidden freshResp
      = ⟨true, 500, "code=403, message=Forbidden\n", []⟩
    ∧ (defaultErrorHandler [] errForbidden freshResp).status ≠ 403
    ∧ (defaultErrorHandler [] errForbidden freshResp).body ≠ "Forbidden\n" := by
  refine ⟨by decide, by decide, by decide⟩

/-- C8 as amended: when a handler or middleware returns a typed HTTP error
and the response is not yet written, `DefaultErrorHandler` renders the
not-found sentinel as Go's standard 404 body, the method-not-allowed
sentinel as status 405 with its status text plus newline and the `Allow`
header from the context, and *every other* error — typed HTTP errors such
as the forbidden sentinel included — as status 500 with the error's
formatted message (`code=<code>, message=<message>`) plus newline; an
already-written response is left untouched. -/
theorem default_error_handler_rendering (rid code : Nat) (msg : String)
    (ms : List Str) (h1 : rid ≠ 1) (h2 : rid ≠ 2) :
    defaultErrorHandler ms (.httpErr rid code msg none) freshResp
      = ⟨true, 500, "code=" ++ toString code ++ ", message=" ++ msg ++ "\n", []⟩
    ∧ defaultErrorHandler ms errNotFound freshResp
      = ⟨true, 404, "404 page not found\n", []⟩
    ∧ defaultErrorHandler ms errMethodNotAllowed freshResp
      = ⟨true, 405, "Method Not Allowed\n", ms⟩
    ∧ (∀ resp : RespState, resp.written = true →
        defaultErrorHandler ms (.httpErr rid code msg none) resp = resp) := by
  refine ⟨?_, ?_, ?_, ?_⟩
  · simp [defaultErrorHandler, errorsIs, GoError.refOf, errNotFound, errMethodNotAllowed,
      newHTTPError, freshResp, h1, h2, GoError.errString]
  · simp [defaultErrorHandler, errorsIs, GoError.refOf, errNotFound, newHTTPError, freshResp]
  · simp [defaultErrorHandler, errorsIs, GoError.refOf, errNotFound, errMethodNotAllowed,
      newHTTPError, freshResp, statusText]
  · intro resp hw
    simp [defaultErrorHandler, hw]

/-- Witness for `default_error_handler_rendering` at the forbidden
sentinel's data (`refId` 3, code 403). -/
theorem default_error_handler_rendering_witness :
    defaultErrorHandler [] (.httpErr 3 403 "Forbidden" none) freshResp
      = ⟨true, 500, "code=" ++ toString 403 ++ ", message=" ++ "Forbidden" ++ "\n", []⟩ :=
  (default_error_handler_rendering 3 403 "Forbidden" [] (by decide) (by decide)).1

/-! ## Canonicity of the path segmenter (claim C10) -/

/-- A canonical segment: begins with the separator, has at least two
characters and no separator after the head (so consecutive separators were
collapsed). -/
def goodSeg (seg : Str) : Prop :=
  seg.head? = some '/' ∧ 2 ≤ seg.length ∧ ∀ c ∈ seg.tail, c ≠ '/'

/-- A span `s[st:i]` cut at separator `st`, reaching past `st+1` and
containing no further separator, is a canonical segment. -/
theorem goodSeg_slice (s : Str) (st i : Nat) (hlt : st + 1 < i) (hle : i ≤ s.length)
    (hsep : s[st]? = some '/') (hno : ∀ k, st < k → k < i → s[k]? ≠ some '/') :
    goodSeg (goSlice s st i) := by
  refine ⟨?_, ?_, ?_⟩
  · rw [goSlice, List.head?_take, if_neg (by omega), List.head?_drop]
    exact hsep
  · rw [goSlice, List.length_take, Nat.min_def, List.length_drop]
    split <;> omega
  · intro c hc
    rw [goSlice, ← List.drop_one, List.drop_take, List.drop_drop] at hc
    rw [List.mem_iff_getElem?] at hc
    obtain ⟨j, hj⟩ := hc
    rw [List.getElem?_take] at hj
    split at hj
    · rename_i hjlt
      rw [List.getElem?_drop] at hj
      intro hcEq
      exact hno (st + 1 + j) (by omega) (by omega) (by rw [hj, hcEq])
    · exact absurd hj (by simp)

/-- The separator-tracking invariant of the `split` loop: either no
separator has been seen among the first `i` characters (`start = -1`), or
`start` is the position of a separator with no separator between it and
`i`. -/
def sepInv (s : Str) (start : Int) (i : Nat) : Prop :=
  (start = -1 ∧ ∀ k, k < i → s[k]? ≠ some '/')
  ∨ (∃ st : Nat, start = (st : Int) ∧ st < i ∧ s[st]? = some '/'
      ∧ ∀ k, st < k → k < i → s[k]? ≠ some '/')

/-- Master invariant of the `split` loop: starting from a state satisfying
`sepInv` with only canonical segments collected, the loop ends (at
`i = s.length`) in a state satisfying `sepInv`, with only canonical segments
collected. -/
theorem splitLoop_invariant (s : Str) :
    ∀ (rest : Str) (i : Nat) (start : Int) (segs : List Str),
      rest = s.drop i → i + rest.length = s.length →
      sepInv s start i →
      (∀ seg ∈ segs, goodSeg seg) →
      sepInv s (splitLoop s rest i start segs).2 s.length
      ∧ ∀ seg ∈ (splitLoop s rest i start segs).1, goodSeg seg := by
  intro rest
  induction rest with
  | nil =>
    intro i start segs _ hlen hinv hsegs
    have hi : i = s.length := by simpa using hlen
    subst hi
    exact ⟨hinv, hsegs⟩
  | cons c rest2 ih =>
    intro i start segs hrest hlen hinv hsegs
    have hci : s[i]? = some c := by
      rw [← List.head?_drop, ← hrest]
      rfl
    have hrest2 : rest2 = s.drop (i + 1) := by
      rw [← List.tail_drop, ← hrest, List.tail_cons]
    have hlen2 : (i + 1) + rest2.length = s.length := by
      simp only [List.length_cons] at hlen
      omega
    by_cases hc : c = pathSeparator
    · have hcc : ¬ (c ≠ pathSeparator) := fun h => h hc
      have hsepi : s[i]? = some '/' := by rw [hci, hc]; rfl
      have hinv1 : sepInv s (i : Int) (i + 1) :=
        Or.inr ⟨i, rfl, by omega, hsepi, fun k h1 h2 => absurd h1 (by omega)⟩
      by_cases hstart : start = -1
      · simp only [splitLoop]
        rw [if_neg hcc, if_pos hstart]
        exact ih (i + 1) (i : Int) segs hrest2 hlen2 hinv1 hsegs
      · obtain ⟨st, hst, hstlt, hstsep, hstno⟩ := hinv.resolve_left (fun h => hstart h.1)
        by_cases hspan : start + 1 < (i : Int)
        · simp only [splitLoop]
          rw [if_neg hcc, if_neg hstart, if_pos hspan]
          refine ih (i + 1) (i : Int) _ hrest2 hlen2 hinv1 ?_
          intro seg hseg
          rcases List.mem_append.mp hseg with h | h
          · exact hsegs seg h
          · have hsg : seg = goSlice s start.toNat i := by simpa using h
            subst hsg
            rw [hst]
            simp only [Int.toNat_natCast]
            exact goodSeg_slice s st i (by omega) (by omega) hstsep hstno
        · simp only [splitLoop]
          rw [if_neg hcc, if_neg hstart, if_neg hspan]
          exact ih (i + 1) (i : Int) segs hrest2 hlen2 hinv1 hsegs
    · simp only [splitLoop]
      rw [if_pos hc]
      refine ih (i + 1) start segs hrest2 hlen2 ?_ hsegs
      have hnotsep : s[i]? ≠ some '/' := by
        rw [hci]
        intro h
        exact hc (by simpa using h)
      rcases hinv with ⟨h1, h2⟩ | ⟨st, hst, hstlt, hstsep, hstno⟩
      · refine Or.inl ⟨h1, fun k hk => ?_⟩
        rcases Nat.lt_succ_iff_lt_or_eq.mp hk with h | h
        · exact h2 k h
        · subst h; exact hnotsep
      · refine Or.inr ⟨st, hst, by omega, hstsep, fun k hk1 hk2 => ?_⟩
        rcases Nat.lt_succ_iff_lt_or_eq.mp hk2 with h | h
        · exact hstno k hk1 h
        · subst h; exact hnotsep

/-- The normalised input always begins with the separator. -/
theorem normalizeGo_zero (s0 : Str) : (normalizeGo s0)[0]? = some '/' := by
  cases s0 with
  | nil => rfl
  | cons c t =>
    by_cases h : c = pathSeparator
    · subst h
      simp [normalizeGo, pathSeparator]
    · have h2 : ¬ c = '/' := by simpa [pathSeparator] using h
      simp [normalizeGo, h2, pathSeparator]

/-- The normalised input is never empty. -/
theorem normalizeGo_pos (s0 : Str) : 0 < (normalizeGo s0).length := by
  cases s0 with
  | nil => simp [normalizeGo]
  | cons c t =>
    simp only [normalizeGo]
    split <;> simp

/-- Normalisation is idempotent. -/
theorem normalizeGo_idem (s0 : Str) : normalizeGo (normalizeGo s0) = normalizeGo s0 := by
  cases s0 with
  | nil => rfl
  | cons c t =>
    by_cases h : c = pathSeparator
    · subst h
      simp [normalizeGo]
    · simp [normalizeGo, h]

/-- The state of the `split` loop as `splitGo` runs it. -/
theorem splitGo_loop_spec (s0 : Str) :
    sepInv (normalizeGo s0)
      (splitLoop (normalizeGo s0) (normalizeGo s0) 0 (-1) []).2 (normalizeGo s0).length
    ∧ ∀ seg ∈ (splitLoop (normalizeGo s0) (normalizeGo s0) 0 (-1) []).1, goodSeg seg :=
  splitLoop_invariant (normalizeGo s0) (normalizeGo s0) 0 (-1) [] rfl (by simp)
    (Or.inl ⟨rfl, fun k hk => absurd hk (by omega)⟩) (by simp)

/-- The final `start` of the loop is the position of the last separator of
the normalised input: a separator with no separator after it. -/
theorem splitGo_last_sep (s0 : Str) :
    ∃ st : Nat, (splitLoop (normalizeGo s0) (normalizeGo s0) 0 (-1) []).2 = (st : Int)
      ∧ st < (normalizeGo s0).length ∧ (normalizeGo s0)[st]? = some '/'
      ∧ ∀ k, st < k → k < (normalizeGo s0).length → (normalizeGo s0)[k]? ≠ some '/' := by
  rcases (splitGo_loop_spec s0).1 with ⟨_, hnone⟩ | h
  · exact absurd (normalizeGo_zero s0) (hnone 0 (normalizeGo_pos s0))
  · exact h

/-- The trailing flag of `split` is exactly "the normalised input ends in a
separator". -/
theorem splitGo_trailing (s0 : Str) :
    (splitGo s0).2 = true ↔ (normalizeGo s0).getLast? = some '/' := by
  obtain ⟨st, hst, hstl, hsep, hno⟩ := splitGo_last_sep s0
  have hsplit : splitGo s0 = splitFinish (normalizeGo s0)
      (splitLoop (normalizeGo s0) (normalizeGo s0) 0 (-1) []) := rfl
  rw [hsplit]
  unfold splitFinish
  rw [List.getLast?_eq_getElem?]
  by_cases hend : st + 1 = (normalizeGo s0).length
  · rw [if_pos (by rw [hst]; omega)]
    have : (normalizeGo s0).length - 1 = st := by omega
    rw [this]
    simp [hsep]
  · rw [if_neg (by rw [hst]; omega)]
    have hlast : (normalizeGo s0)[(normalizeGo s0).length - 1]? ≠ some '/' :=
      hno ((normalizeGo s0).length - 1) (by omega) (by omega)
    split
    · simp [hlast]
    · simp [hlast]

/-- Every segment returned by `split` is canonical. -/
theorem splitGo_segments (s0 : Str) : ∀ seg ∈ (splitGo s0).1, goodSeg seg := by
  obtain ⟨st, hst, hstl, hsep, hno⟩ := splitGo_last_sep s0
  have hgood := (splitGo_loop_spec s0).2
  intro seg hseg
  have hsplit : splitGo s0 = splitFinish (normalizeGo s0)
      (splitLoop (normalizeGo s0) (normalizeGo s0) 0 (-1) []) := rfl
  rw [hsplit] at hseg
  unfold splitFinish at hseg
  split at hseg
  · exact hgood seg hseg
  · split at hseg
    · rename_i hc2
      have hcases : seg ∈ (splitLoop (normalizeGo s0) (normalizeGo s0) 0 (-1) []).1
          ∨ seg = (normalizeGo s0).drop
              (splitLoop (normalizeGo s0) (normalizeGo s0) 0 (-1) []).2.toNat := by
        simpa using hseg
      rcases hcases with h | h
      · exact hgood seg h
      · have hseg2 : seg = (normalizeGo s0).drop st := by
          rw [hst] at h
          simpa [Int.toNat_natCast] using h
        subst hseg2
        have h1 : st + 1 < (normalizeGo s0).length := by
          rw [hst] at hc2
          omega
        have hds : (normalizeGo s0).drop st
            = goSlice (normalizeGo s0) st (normalizeGo s0).length := by
          rw [goSlice]
          exact (List.take_of_length_le (by rw [List.length_drop])).symm
        rw [hds]
        exact goodSeg_slice (normalizeGo s0) st (normalizeGo s0).length h1 (le_refl _)
          hsep hno
    · exact hgood seg hseg

/-- C10: confirmed.  `split` is total and canonical: the empty input and the
root `"/"` both yield `(nil, true)`; an input without a leading separator is
split exactly as its normalisation (`"/"` prepended, empty input replaced by
`"/"`); every returned segment begins with `/`, has length at least 2, and
contains no separator after its head (consecutive separators collapse); and
the trailing flag is `true` exactly when the normalised input ends with
`/`. -/
theorem split_canonical :
    (splitGo [] = ([], true) ∧ splitGo ['/'] = ([], true))
    ∧ (∀ s0 : Str, splitGo s0 = splitGo (normalizeGo s0))
    ∧ (∀ s0 seg : Str, seg ∈ (splitGo s0).1 →
        seg.head? = some '/' ∧ 2 ≤ seg.length ∧ ∀ c ∈ seg.tail, c ≠ '/')
    ∧ (∀ s0 : Str, ((splitGo s0).2 = true ↔ (normalizeGo s0).getLast? = some '/')) := by
  refine ⟨⟨by decide, by decide⟩, ?_, ?_, fun s0 => splitGo_trailing s0⟩
  · intro s0
    show splitFinish (normalizeGo s0) _ = splitFinish (normalizeGo (normalizeGo s0)) _
    rw [normalizeGo_idem]
  · intro s0 seg h
    exact splitGo_segments s0 seg h

/-- Witness for `split_canonical`: the segment `/a` of `/a//b/`. -/
theorem split_canonical_witness :
    "/a".toList ∈ (splitGo "/a//b/".toList).1
    ∧ ("/a".toList.head? = some '/' ∧ 2 ≤ "/a".toList.length
        ∧ ∀ c ∈ "/a".toList.tail, c ≠ '/') :=
  ⟨by decide, split_canonical.2.2.1 "/a//b/".toList "/a".toList (by decide)⟩
